import Mathlib

/-!
Verification of the ArcGIS REST fetch scripts.

This file embeds the data model and the operations of the repository's four
scripts, shallowly:

* script 01 (fetch_LGA_boundary_REST.py): one GET, dump the parsed body;
* script 02 (fetch_LEP_data_REST.py): pagination probe, paginated fetch loop
  with a per-page retry loop, single-request fallback, GeoJSON save;
* script 04 (fetch_Lot_Data_spatial_filter_REST.py): boundary preprocessing
  (dissolve/reproject), count probe, chunked fetch loop without retries;
* the Python json library (dump/load), modelled at the token level, is used
  for the round-trip property of save_geojson.

Network effects are modelled by passing the server as a function from request
data (offset, attempt index) to a response, where a response is either a
parsed body (.ok) or a raised requests exception (.error).  Unbounded while
loops are given fuel; a fuel-exhausted run is reported as a separate outcome
(Option.none) so no theorem can mistake it for a terminating run.
-/

/-- Parsed JSON values, as produced by Python's response.json()/json.load.
Numbers are modelled as integers; objects are association lists in document
order (Python dicts preserve insertion order). -/
inductive Json : Type where
  | null : Json
  | bool : Bool → Json
  | num : Int → Json
  | str : String → Json
  | arr : List Json → Json
  | obj : List (String × Json) → Json

/-- Association-list lookup, the model of Python dict.get on a parsed JSON
object (keys are unique in a dict parsed from JSON). -/
def jLookup : List (String × Json) → String → Option Json
  | [], _ => none
  | (k, v) :: t, key => if k = key then some v else jLookup t key

/-- dict.get on a JSON value: some value when the receiver is an object with
the key; none when the key is absent or the receiver is not an object (in
Python the latter raises AttributeError, which every caller in the repository
catches). -/
def jGet : Json → String → Option Json
  | .obj fs, key => jLookup fs key
  | _, _ => none

/-- Python truthiness of a parsed JSON value (used by if-tests on them). -/
def truthy : Json → Bool
  | .null => false
  | .bool b => b
  | .num n => decide (n ≠ 0)
  | .str s => decide (s ≠ "")
  | .arr xs => !xs.isEmpty
  | .obj fs => !fs.isEmpty

/-- The tokens of a serialized JSON document.  json.dump with indent=2 and
ensure_ascii=False emits exactly this token stream, interleaved with
whitespace that json.load's lexer discards; the model therefore works at the
token level and leaves whitespace and string escaping below the abstraction. -/
inductive JTok : Type where
  | lbrace : JTok
  | rbrace : JTok
  | lbrack : JTok
  | rbrack : JTok
  | colon : JTok
  | comma : JTok
  | null : JTok
  | tru : JTok
  | fls : JTok
  | num : Int → JTok
  | str : String → JTok
deriving DecidableEq

mutual

/-- Token stream of json.dump for one value. -/
def serV : Json → List JTok
  | .null => [.null]
  | .bool true => [.tru]
  | .bool false => [.fls]
  | .num n => [.num n]
  | .str s => [.str s]
  | .arr xs => .lbrack :: (serItems xs ++ [.rbrack])
  | .obj fs => .lbrace :: (serFields fs ++ [.rbrace])

/-- Comma-separated serialization of array elements. -/
def serItems : List Json → List JTok
  | [] => []
  | [x] => serV x
  | x :: y :: t => serV x ++ .comma :: serItems (y :: t)

/-- Comma-separated serialization of object members. -/
def serFields : List (String × Json) → List JTok
  | [] => []
  | [(k, v)] => .str k :: .colon :: serV v
  | (k, v) :: p :: t => (.str k :: .colon :: serV v) ++ .comma :: serFields (p :: t)

end

mutual

/-- Recursion budget needed by the token parser for one value. -/
def szV : Json → Nat
  | .null => 1
  | .bool _ => 1
  | .num _ => 1
  | .str _ => 1
  | .arr xs => szA xs + 2
  | .obj fs => szF fs + 2

/-- Budget for a nonempty tail of array elements. -/
def szA : List Json → Nat
  | [] => 0
  | x :: t => szV x + szA t + 1

/-- Budget for a nonempty tail of object members. -/
def szF : List (String × Json) → Nat
  | [] => 0
  | (_, v) :: t => szV v + szF t + 1

end

mutual

/-- Recursive-descent token parser for one JSON value: the model of
json.load.  Returns the value and the unconsumed suffix. -/
def parseValue : Nat → List JTok → Option (Json × List JTok)
  | 0, _ => none
  | fuel + 1, toks =>
    match toks with
    | .null :: r => some (.null, r)
    | .tru :: r => some (.bool true, r)
    | .fls :: r => some (.bool false, r)
    | .num n :: r => some (.num n, r)
    | .str s :: r => some (.str s, r)
    | .lbrack :: r =>
      match parseArrTail fuel r with
      | some (xs, r2) => some (.arr xs, r2)
      | none => none
    | .lbrace :: r =>
      match parseObjTail fuel r with
      | some (fs, r2) => some (.obj fs, r2)
      | none => none
    | _ => none

/-- After a lbrack: an immediate rbrack is the empty array, anything else
must be one or more comma-separated elements then rbrack. -/
def parseArrTail : Nat → List JTok → Option (List Json × List JTok)
  | 0, _ => none
  | _ + 1, .rbrack :: r => some ([], r)
  | fuel + 1, toks => parseItems fuel toks

/-- One or more comma-separated elements, consuming the closing rbrack. -/
def parseItems : Nat → List JTok → Option (List Json × List JTok)
  | 0, _ => none
  | fuel + 1, toks =>
    match parseValue fuel toks with
    | some (v, .rbrack :: r2) => some ([v], r2)
    | some (v, .comma :: r2) =>
      match parseItems fuel r2 with
      | some (vs, r3) => some (v :: vs, r3)
      | none => none
    | _ => none

/-- After a lbrace: an immediate rbrace is the empty object, anything else
must be one or more comma-separated members then rbrace. -/
def parseObjTail : Nat → List JTok → Option (List (String × Json) × List JTok)
  | 0, _ => none
  | _ + 1, .rbrace :: r => some ([], r)
  | fuel + 1, toks => parseFields fuel toks

/-- One or more comma-separated key:value members, consuming the closing
rbrace. -/
def parseFields : Nat → List JTok → Option (List (String × Json) × List JTok)
  | 0, _ => none
  | fuel + 1, .str k :: .colon :: toks =>
    match parseValue fuel toks with
    | some (v, .rbrace :: r2) => some ([(k, v)], r2)
    | some (v, .comma :: r2) =>
      match parseFields fuel r2 with
      | some (fs, r3) => some ((k, v) :: fs, r3)
      | none => none
    | _ => none
  | _ + 1, _ => none

end

/-- json.load on a whole document: the parse must consume every token. -/
def json_load (toks : List JTok) : Option Json :=
  match parseValue (3 * toks.length + 1) toks with
  | some (v, []) => some v
  | _ => none

/-- The GeoJSON FeatureCollection dict that scripts 02 and 04 build locally
around the accumulated feature list before dumping it. -/
def geojsonOf (features : List Json) : Json :=
  .obj [("type", .str "FeatureCollection"), ("features", .arr features)]

/-- save_geojson (script 02): json.dump of the value, as a token stream
(the file's contents up to whitespace). -/
def save_geojson (g : Json) : List JTok :=
  serV g

/-- Errors a fetch can surface with, in script 02. -/
inductive FetchError : Type where
  | fetchFailed : String → FetchError
  | nameError : FetchError
  | typeError : FetchError
deriving DecidableEq

/-- Outcome of the inner retry loop of fetch_with_pagination: the Python
for-attempt-in-range(max_retries) loop around one page request. -/
inductive RetryOutcome (β : Type) : Type where
  | success : β → RetryOutcome β
  | raised : String → RetryOutcome β
  | fellThrough : RetryOutcome β
deriving DecidableEq

/-- One page's retry loop, started at a given attempt index with a given
number of attempts remaining; req maps an attempt index to that attempt's
response.  Returns the outcome and the number of attempts actually made.
On a failed attempt the code retries while attempt < max_retries - 1 and
otherwise raises; with zero attempts remaining the loop body never runs and
the loop falls through without binding data. -/
def retryLoopAux (req : Nat → Except String β) : Nat → Nat → RetryOutcome β × Nat
  | _, 0 => (.fellThrough, 0)
  | attempt, r + 1 =>
    match req attempt with
    | .ok d => (.success d, 1)
    | .error e =>
      if 0 < r then
        let p := retryLoopAux req (attempt + 1) r
        (p.1, p.2 + 1)
      else (.raised e, 1)

/-- The retry loop as the code enters it: attempt 0, max_retries budget. -/
def retryLoop (req : Nat → Except String β) (maxRetries : Nat) : RetryOutcome β × Nat :=
  retryLoopAux req 0 maxRetries

/-- Result of the paginated fetch loop: outcome (none when the loop's fuel
ran out, which models a diverging run), the offsets at which page requests
were issued, and the total number of HTTP attempts. -/
structure PagResult (α : Type) : Type where
  outcome : Option (Except FetchError (List α))
  offsets : List Nat
  attempts : Nat

/-- The while-True loop of fetch_with_pagination.  srv maps (offset, attempt)
to the feature list the server answers with (data.get of the features key,
which defaults to an empty list) or a raised exception.  Per iteration: run
the retry loop; a raise aborts the whole fetch; a fall-through (only when
max_retries = 0) leaves data unbound so the subsequent data.get raises
NameError; an empty page breaks without extending; a page shorter than
page_size extends and breaks; a full page extends, advances the offset by
page_size and loops. -/
def fetchPagesAux (srv : Nat → Nat → Except String (List α)) (pageSize maxRetries : Nat) :
    Nat → Nat → List α → PagResult α
  | 0, _, _ => ⟨none, [], 0⟩
  | fuel + 1, offset, acc =>
    match retryLoop (srv offset) maxRetries with
    | (.fellThrough, n) => ⟨some (.error .nameError), [offset], n⟩
    | (.raised e, n) => ⟨some (.error (.fetchFailed e)), [offset], n⟩
    | (.success fs, n) =>
      if fs.isEmpty then ⟨some (.ok acc), [offset], n⟩
      else if fs.length < pageSize then ⟨some (.ok (acc ++ fs)), [offset], n⟩
      else
        let r := fetchPagesAux srv pageSize maxRetries fuel (offset + pageSize) (acc ++ fs)
        ⟨r.outcome, offset :: r.offsets, n + r.attempts⟩

/-- fetch_with_pagination: the loop started at offset 0 with no features
accumulated. -/
def fetch_with_pagination (srv : Nat → Nat → Except String (List α))
    (pageSize maxRetries fuel : Nat) : PagResult α :=
  fetchPagesAux srv pageSize maxRetries fuel 0 []

/-- A well-behaved paginated server holding the feature list feats: a request
at resultOffset o with resultRecordCount P is answered with that slice, on
every attempt. -/
def honestSrv (feats : List α) (pageSize : Nat) : Nat → Nat → Except String (List α) :=
  fun offset _ => .ok ((feats.drop offset).take pageSize)

/-- Outcome of fetch_single_request: the features with the truncation-warning
flag, Python's implicit None return (when max_retries = 0 the for loop never
runs), or a raised exception. -/
inductive SingleOutcome (α : Type) : Type where
  | returned : List α → Bool → SingleOutcome α
  | returnedNone : SingleOutcome α
  | raised : String → SingleOutcome α
deriving DecidableEq

/-- fetch_single_request: one retry loop; on success the features are
returned and a truncation warning is printed when 1000 or more features came
back (1000 being the implicit ArcGIS record cap). -/
def fetch_single_request (req : Nat → Except String (List α)) (maxRetries : Nat) :
    SingleOutcome α × Nat :=
  match retryLoop req maxRetries with
  | (.success fs, n) => (.returned fs (decide (1000 ≤ fs.length)), n)
  | (.raised e, n) => (.raised e, n)
  | (.fellThrough, n) => (.returnedNone, n)

/-- check_pagination_support: probe the service metadata and read
metadata.get of advancedQueryCapabilities (default empty dict) then .get of
supportsPagination (default False).  Every exception - network failure,
raise_for_status, a malformed body, .get on a non-dict - is caught inside
the function and yields False. -/
def check_pagination_support (resp : Except String Json) : Json :=
  match resp with
  | .error _ => .bool false
  | .ok metadata =>
    match jGet metadata "advancedQueryCapabilities" with
    | some caps =>
      match jGet caps "supportsPagination" with
      | some v => v
      | none => .bool false
    | none => .bool false

/-- Result of fetch_arcgis_features: the outcome (none when the pagination
loop's fuel ran out) and which branch was taken. -/
structure FetchRun : Type where
  outcome : Option (Except FetchError Json)
  usedPagination : Bool

/-- fetch_arcgis_features: probe pagination support; on a truthy result run
the paginated loop with page_size 1000, otherwise the single-request
fallback; wrap the resulting feature list in a FeatureCollection dict.  When
the single path returned None, the subsequent len(all_features) raises
TypeError. -/
def fetch_arcgis_features (probe : Except String Json)
    (srvPag : Nat → Nat → Except String (List Json))
    (srvSingle : Nat → Except String (List Json)) (maxRetries fuel : Nat) : FetchRun :=
  if truthy (check_pagination_support probe) then
    let r := fetch_with_pagination srvPag 1000 maxRetries fuel
    ⟨r.outcome.map (Except.map geojsonOf), true⟩
  else
    match fetch_single_request srvSingle maxRetries with
    | (.returned fs _, _) => ⟨some (.ok (geojsonOf fs)), false⟩
    | (.raised e, _) => ⟨some (.error (.fetchFailed e)), false⟩
    | (.returnedNone, _) => ⟨some (.error .typeError), false⟩

/-- The try block of script 02's main: save_geojson runs only after
fetch_arcgis_features returned; any exception skips the save, so the file's
contents exist exactly for an .ok outcome. -/
def main_02 (run : FetchRun) : Option Json :=
  match run.outcome with
  | some (.ok g) => some g
  | _ => none

/-- Script 01's module body: one GET, raise_for_status, json-parse, dump the
parsed body verbatim.  An exception propagates and nothing is written. -/
def fetch_LGA_boundary (resp : Except String Json) : Option Json :=
  match resp with
  | .ok body => some body
  | .error _ => none

/-- quick_spatial_query (script 04) saves the parsed response verbatim, like
script 01. -/
def quick_spatial_query_save (resp : Except String Json) : Option Json :=
  match resp with
  | .ok body => some body
  | .error _ => none

/-- A geopandas GeoDataFrame, reduced to what the scripts touch: the geometry
column and the coordinate reference system. -/
structure GeoDataFrame (G : Type) : Type where
  geoms : List G
  crs : String
deriving DecidableEq

/-- Modelled from the spec: geopandas GeoDataFrame.dissolve (external
library, not in src) merges the geometry column into its single union
geometry; the union operation itself is a parameter. -/
def dissolve (union : List G → G) (gdf : GeoDataFrame G) : GeoDataFrame G :=
  ⟨[union gdf.geoms], gdf.crs⟩

/-- Modelled from the spec: geopandas GeoDataFrame.to_crs (external library,
not in src) reprojects every geometry from the current reference system to
the target one; the pointwise reprojection is a parameter. -/
def to_crs (reproject : String → String → G → G) (target : String)
    (gdf : GeoDataFrame G) : GeoDataFrame G :=
  ⟨gdf.geoms.map (reproject gdf.crs target), target⟩

/-- Boundary preprocessing outcome with the two decisions recorded. -/
structure PrepResult (G : Type) : Type where
  gdf : GeoDataFrame G
  dissolved : Bool
  reprojected : Bool
deriving DecidableEq

/-- The boundary-preparation block of get_features_by_polygon: dissolve only
when more than one polygon was loaded, then reproject to EPSG:4326 only when
the reference system differs from it. -/
def prepare_boundary (union : List G → G) (reproject : String → String → G → G)
    (gdf : GeoDataFrame G) : PrepResult G :=
  let d : Bool := decide (1 < gdf.geoms.length)
  let g1 := if d then dissolve union gdf else gdf
  let r : Bool := decide (g1.crs ≠ "EPSG:4326")
  let g2 := if r then to_crs reproject "EPSG:4326" g1 else g1
  ⟨g2, d, r⟩

/-- Result of script 04's chunked fetch loop: the final all_features list
(none when the loop's fuel ran out) and the offsets requested. -/
structure LotPages (α : Type) : Type where
  features : Option (List α)
  offsets : List Nat
deriving DecidableEq

/-- The while-True loop of get_features_by_polygon.  One attempt per page, no
retries; an exception breaks the loop keeping the features accumulated so
far; an empty page breaks; without pagination the loop ends after the first
page; a short page extends and breaks; a full page extends, advances the
offset by chunk_size and loops. -/
def lotFetchAux (srv : Nat → Except String (List α)) (chunkSize : Nat) (needsPag : Bool) :
    Nat → Nat → List α → LotPages α
  | 0, _, _ => ⟨none, []⟩
  | fuel + 1, offset, acc =>
    match srv offset with
    | .error _ => ⟨some acc, [offset]⟩
    | .ok fs =>
      if fs.isEmpty then ⟨some acc, [offset]⟩
      else if !needsPag then ⟨some (acc ++ fs), [offset]⟩
      else if fs.length < chunkSize then ⟨some (acc ++ fs), [offset]⟩
      else
        let r := lotFetchAux srv chunkSize needsPag fuel (offset + chunkSize) (acc ++ fs)
        ⟨r.features, offset :: r.offsets⟩

/-- Observable result of one run of get_features_by_polygon: the file written
(none when nothing was saved), the number of HTTP requests issued, how often
the boundary-loading step ran, and whether a loading error was reported. -/
structure LotRun : Type where
  saved : Option Json
  httpRequests : Nat
  loadAttempts : Nat
  loadErrorReported : Bool

/-- get_features_by_polygon, end to end.  Loading the boundary file happens
once, inside a try whose except reports the error and returns None before any
request is built (taking .iloc 0 of an empty frame raises inside the same
try).  Then one count request decides needs_pagination (a missing count makes
it falsy, as does a count not exceeding chunk_size), the fetch loop runs, and
the result is saved only when at least one feature was accumulated. -/
def get_features_by_polygon_model (G : Type) (union : List G → G)
    (reproject : String → String → G → G) (load : Except String (GeoDataFrame G))
    (countResp : G → Except String Nat) (srv : G → Nat → Except String (List Json))
    (chunkSize fuel : Nat) : LotRun :=
  match load with
  | .error _ => ⟨none, 0, 1, true⟩
  | .ok gdf =>
    match (prepare_boundary union reproject gdf).gdf.geoms.head? with
    | none => ⟨none, 0, 1, true⟩
    | some bg =>
      let totalCount : Option Nat :=
        match countResp bg with
        | .ok c => some c
        | .error _ => none
      let needsPag : Bool :=
        match totalCount with
        | some c => decide (chunkSize < c)
        | none => false
      let pages := lotFetchAux (srv bg) chunkSize needsPag fuel 0 []
      match pages.features with
      | none => ⟨none, 1 + pages.offsets.length, 1, false⟩
      | some fs =>
        ⟨if fs.isEmpty then none else some (geojsonOf fs),
         1 + pages.offsets.length, 1, false⟩

/-- The retry loop never makes more attempts than it has remaining. -/
theorem retryLoopAux_attempts_le (req : Nat → Except String β) :
    ∀ r a, (retryLoopAux req a r).2 ≤ r := by
  intro r
  induction r with
  | zero => intro a; simp [retryLoopAux]
  | succ s ih =>
    intro a
    simp only [retryLoopAux]
    cases req a with
    | ok d => simp
    | error e =>
      by_cases hs : 0 < s
      · simpa [hs] using Nat.succ_le_succ (ih (a + 1))
      · simp [hs]

/-- When every attempt fails and at least one attempt is allowed, the retry
loop makes exactly its allowed number of attempts and then raises. -/
theorem retryLoopAux_all_fail (req : Nat → Except String β) (e : String)
    (hfail : ∀ i, req i = .error e) :
    ∀ r a, 0 < r → retryLoopAux req a r = (.raised e, r) := by
  intro r
  induction r with
  | zero => intro a h; exact absurd h (by simp)
  | succ s ih =>
    intro a _
    simp only [retryLoopAux, hfail a]
    by_cases hs : 0 < s
    · simp [hs, ih a.succ hs]
    · have hs0 : s = 0 := by omega
      simp [hs, hs0]

/-- A first attempt that succeeds ends the retry loop after one attempt. -/
theorem retryLoop_first_ok (req : Nat → Except String β) (d : β) (maxRetries : Nat)
    (h0 : req 0 = .ok d) (hR : 0 < maxRetries) :
    retryLoop req maxRetries = (.success d, 1) := by
  obtain ⟨m, rfl⟩ := Nat.exists_eq_succ_of_ne_zero (Nat.pos_iff_ne_zero.mp hR)
  simp [retryLoop, retryLoopAux, h0]

/-- With fuel left, the pagination loop's first iteration requests the
current offset. -/
theorem fetchPagesAux_offsets_head (srv : Nat → Nat → Except String (List α))
    (pageSize maxRetries fuel offset : Nat) (acc : List α) :
    ∃ t, (fetchPagesAux srv pageSize maxRetries (fuel + 1) offset acc).offsets =
      offset :: t := by
  simp only [fetchPagesAux]
  rcases retryLoop (srv offset) maxRetries with ⟨out, n⟩
  cases out with
  | fellThrough => exact ⟨[], rfl⟩
  | raised e => exact ⟨[], rfl⟩
  | success fs =>
    by_cases h1 : fs.isEmpty
    · exact ⟨[], by simp [h1]⟩
    · by_cases h2 : fs.length < pageSize
      · exact ⟨[], by simp [h1, h2]⟩
      · exact ⟨(fetchPagesAux srv pageSize maxRetries fuel (offset + pageSize)
          (acc ++ fs)).offsets, by simp [h1, h2]⟩

/-- With fuel left, the lot loop's first iteration requests the current
offset. -/
theorem lotFetchAux_offsets_head (srv : Nat → Except String (List α))
    (chunkSize : Nat) (needsPag : Bool) (fuel offset : Nat) (acc : List α) :
    ∃ t, (lotFetchAux srv chunkSize needsPag (fuel + 1) offset acc).offsets =
      offset :: t := by
  simp only [lotFetchAux]
  cases srv offset with
  | error e => exact ⟨[], rfl⟩
  | ok fs =>
    by_cases h1 : fs.isEmpty
    · exact ⟨[], by simp [h1]⟩
    · by_cases h2 : needsPag
      · by_cases h3 : fs.length < chunkSize
        · exact ⟨[], by simp [h1, h2, h3]⟩
        · exact ⟨(lotFetchAux srv chunkSize needsPag fuel (offset + chunkSize)
            (acc ++ fs)).offsets, by simp [h1, h2, h3]⟩
      · exact ⟨[], by simp [h1, h2]⟩

/-- Splitting a range of requested offsets at its first element. -/
theorem range_offsets (n offset P : Nat) :
    (List.range (n + 1)).map (fun k => offset + k * P) =
      offset :: (List.range n).map (fun k => offset + P + k * P) := by
  rw [List.range_succ_eq_map]
  simp only [List.map_cons, List.map_map, Nat.zero_mul, Nat.add_zero]
  refine congrArg (List.cons offset) (List.map_congr_left ?_)
  intro k _
  simp only [Function.comp_apply, Nat.succ_eq_add_one]
  ring

/-- Behaviour of the pagination loop against a well-behaved server: starting
anywhere, it returns every remaining feature in order, requests the offsets
offset, offset + P, ..., and makes one HTTP attempt per page, the page count
being remaining / P + 1. -/
theorem fetchPagesAux_honest (feats : List α) (P maxRetries : Nat)
    (hP : 0 < P) (hR : 0 < maxRetries) :
    ∀ fuel offset acc, (feats.length - offset) / P < fuel →
      fetchPagesAux (honestSrv feats P) P maxRetries fuel offset acc =
        ⟨some (.ok (acc ++ feats.drop offset)),
         (List.range ((feats.length - offset) / P + 1)).map (fun k => offset + k * P),
         (feats.length - offset) / P + 1⟩ := by
  intro fuel
  induction fuel with
  | zero => intro offset acc h; exact absurd h (Nat.not_lt_zero _)
  | succ f ih =>
    intro offset acc h
    have hret : retryLoop (honestSrv feats P offset) maxRetries =
        (.success ((feats.drop offset).take P), 1) :=
      retryLoop_first_ok _ _ _ rfl hR
    simp only [fetchPagesAux, hret]
    by_cases hoff : feats.length ≤ offset
    · have hdrop : feats.drop offset = [] := List.drop_eq_nil_of_le hoff
      have hsub : feats.length - offset = 0 := Nat.sub_eq_zero_of_le hoff
      have hr1 : (List.range 1).map (fun k => offset + k * P) = [offset] := by
        rw [range_offsets]
        simp
      simp [hdrop, hsub, hr1]
    · push_neg at hoff
      have hlend : (feats.drop offset).length = feats.length - offset :=
        List.length_drop offset feats
      by_cases hshort : feats.length - offset < P
      · have htake : (feats.drop offset).take P = feats.drop offset := by
          apply List.take_of_length_le
          omega
        have hne : ¬ (feats.drop offset).isEmpty := by
          rw [List.isEmpty_iff, ← List.length_eq_zero]
          omega
        have hdiv : (feats.length - offset) / P = 0 := Nat.div_eq_of_lt hshort
        have hr1 : (List.range 1).map (fun k => offset + k * P) = [offset] := by
          rw [range_offsets]
          simp
        simp [htake, hne, hlend, hshort, hdiv, hr1]
      · push_neg at hshort
        have hplen : ((feats.drop offset).take P).length = P := by
          rw [List.length_take]
          omega
        have hne : ((feats.drop offset).take P).isEmpty = false := by
          rw [List.isEmpty_eq_false, ← List.length_pos]
          omega
        have hnl : ¬ ((feats.drop offset).take P).length < P := by omega
        have hdiv : (feats.length - offset) / P = (feats.length - (offset + P)) / P + 1 := by
          rw [Nat.div_eq (feats.length - offset) P]
          have : feats.length - offset - P = feats.length - (offset + P) := by omega
          simp [hP, hshort, this]
        have hih := ih (offset + P) (acc ++ (feats.drop offset).take P) (by omega)
        simp only [hne, Bool.false_eq_true, if_false, hnl, hih]
        simp only [PagResult.mk.injEq]
        refine ⟨?_, ?_, ?_⟩
        · have hjoin : (feats.drop offset).take P ++ feats.drop (offset + P) =
              feats.drop offset := by
            have hdd : feats.drop (offset + P) = (feats.drop offset).drop P := by
              rw [List.drop_drop, Nat.add_comm]
            rw [hdd, List.take_append_drop]
          rw [List.append_assoc, hjoin]
        · rw [hdiv]
          exact (range_offsets ((feats.length - (offset + P)) / P + 1) offset P).symm
        · omega

/-- Claim C1, counterexample: with page size P = 1 and N = 1 matching
feature, the pagination-supporting server yields the single feature, but the
loop issues 2 page requests (the second observes the empty page), whereas
ceil(N/P) = (1 + 1 - 1) / 1 = 1; so the request count claimed as stated is
wrong whenever P divides N. -/
theorem pagination_request_count_counterexample :
    (fetch_with_pagination (honestSrv ([0] : List Nat) 1) 1 3 2).outcome =
      some (.ok [0]) ∧
    (fetch_with_pagination (honestSrv ([0] : List Nat) 1) 1 3 2).attempts = 2 ∧
    (fetch_with_pagination (honestSrv ([0] : List Nat) 1) 1 3 2).offsets.length = 2 ∧
    (1 + 1 - 1) / 1 = 1 ∧
    (fetch_with_pagination (honestSrv ([0] : List Nat) 1) 1 3 2).attempts ≠ (1 + 1 - 1) / 1 := by
  exact ⟨rfl, rfl, rfl, rfl, by decide⟩

/-- Claim C1 (amended): for every page size P ≥ 1, retry budget ≥ 1 and
feature list of length N on a pagination-supporting server,
fetch_with_pagination returns exactly the N features in server order and
issues exactly N / P + 1 page requests, one HTTP attempt each, at offsets
0, P, 2P, ...; this equals ceil(N/P) when P does not divide N, and is one
more than ceil(N/P) (a trailing empty or short page observation) when P
divides N, including N = 0. -/
theorem pagination_returns_all_features_with_request_count (α : Type)
    (feats : List α) (P maxRetries : Nat) (hP : 0 < P) (hR : 0 < maxRetries) :
    fetch_with_pagination (honestSrv feats P) P maxRetries (feats.length / P + 1) =
      ⟨some (.ok feats),
       (List.range (feats.length / P + 1)).map (fun k => k * P),
       feats.length / P + 1⟩ := by
  have h := fetchPagesAux_honest feats P maxRetries hP hR (feats.length / P + 1) 0 []
    (by simp)
  rw [fetch_with_pagination, h]
  simp

/-- Witness for C1's amended theorem: three features, pages of size two,
hence 3 / 2 + 1 = 2 requests at offsets 0 and 2. -/
theorem pagination_returns_all_features_with_request_count_witness :
    fetch_with_pagination (honestSrv ([10, 20, 30] : List Nat) 2) 2 3 2 =
      ⟨some (.ok [10, 20, 30]), [0, 2], 2⟩ := by
  have h := pagination_returns_all_features_with_request_count Nat [10, 20, 30] 2 3
    (by decide) (by decide)
  simpa using h

/-- Claim C3: with at least one retry allowed and a successful response fs at
the current offset, the paginated loops issue a request at the next offset
exactly when fs filled the page: the 02 loop continues iff page_size ≤
fs.length (so an empty or short page stops it), and the 04 loop in
pagination mode continues iff chunk_size ≤ fs.length. -/
theorem fetch_loop_stop_condition (α : Type)
    (srv : Nat → Nat → Except String (List α)) (lsrv : Nat → Except String (List α))
    (P maxRetries chunk fuel offset : Nat) (acc lacc fs gs : List α)
    (hP : 0 < P) (hR : 0 < maxRetries) (hc : 0 < chunk)
    (hsrv : srv offset 0 = .ok fs) (hlsrv : lsrv offset = .ok gs) :
    ((offset + P) ∈ (fetchPagesAux srv P maxRetries (fuel + 2) offset acc).offsets ↔
      P ≤ fs.length) ∧
    ((offset + chunk) ∈ (lotFetchAux lsrv chunk true (fuel + 2) offset lacc).offsets ↔
      chunk ≤ gs.length) := by
  constructor
  · have hret := retryLoop_first_ok (srv offset) fs maxRetries hsrv hR
    show (offset + P) ∈ (fetchPagesAux srv P maxRetries (fuel + 1 + 1) offset acc).offsets ↔ _
    simp only [fetchPagesAux, hret]
    by_cases h1 : fs.isEmpty
    · have hnil : fs = [] := List.isEmpty_iff.mp h1
      subst hnil
      show offset + P ∈ [offset] ↔ P ≤ ([] : List α).length
      rw [List.mem_singleton]
      simp only [List.length_nil]
      omega
    · by_cases h2 : fs.length < P
      · rw [if_neg h1, if_pos h2]
        show offset + P ∈ [offset] ↔ _
        rw [List.mem_singleton]
        omega
      · rw [if_neg h1, if_neg h2]
        obtain ⟨t, ht⟩ := fetchPagesAux_offsets_head srv P maxRetries fuel (offset + P)
          (acc ++ fs)
        show offset + P ∈ offset ::
          (fetchPagesAux srv P maxRetries (fuel + 1) (offset + P) (acc ++ fs)).offsets ↔ _
        rw [ht]
        constructor
        · intro _
          omega
        · intro _
          exact List.mem_cons_of_mem _ (List.mem_cons_self _ _)
  · show (offset + chunk) ∈ (lotFetchAux lsrv chunk true (fuel + 1 + 1) offset lacc).offsets ↔ _
    simp only [lotFetchAux, hlsrv]
    by_cases h1 : gs.isEmpty
    · have hnil : gs = [] := List.isEmpty_iff.mp h1
      subst hnil
      show offset + chunk ∈ [offset] ↔ chunk ≤ ([] : List α).length
      rw [List.mem_singleton]
      simp only [List.length_nil]
      omega
    · by_cases h2 : gs.length < chunk
      · rw [if_neg h1]
        show offset + chunk ∈
          (if (!true : Bool) then (⟨some (lacc ++ gs), [offset]⟩ : LotPages α)
           else if gs.length < chunk then ⟨some (lacc ++ gs), [offset]⟩
           else
             let r := lotFetchAux lsrv chunk true (fuel + 1) (offset + chunk) (lacc ++ gs)
             ⟨r.features, offset :: r.offsets⟩).offsets ↔ _
        rw [if_neg (by simp), if_pos h2]
        show offset + chunk ∈ [offset] ↔ _
        rw [List.mem_singleton]
        omega
      · rw [if_neg h1]
        obtain ⟨t, ht⟩ := lotFetchAux_offsets_head lsrv chunk true fuel (offset + chunk)
          (lacc ++ gs)
        show offset + chunk ∈
          (if (!true : Bool) then (⟨some (lacc ++ gs), [offset]⟩ : LotPages α)
           else if gs.length < chunk then ⟨some (lacc ++ gs), [offset]⟩
           else
             let r := lotFetchAux lsrv chunk true (fuel + 1) (offset + chunk) (lacc ++ gs)
             ⟨r.features, offset :: r.offsets⟩).offsets ↔ _
        rw [if_neg (by simp), if_neg h2]
        show offset + chunk ∈ offset ::
          (lotFetchAux lsrv chunk true (fuel + 1) (offset + chunk) (lacc ++ gs)).offsets ↔ _
        rw [ht]
        constructor
        · intro _
          omega
        · intro _
          exact List.mem_cons_of_mem _ (List.mem_cons_self _ _)

/-- Witness for C3: page size 1, first page full, so the loop requests
offset 1; chunked variant likewise. -/
theorem fetch_loop_stop_condition_witness :
    ((0 + 1) ∈ (fetchPagesAux (honestSrv ([5, 6] : List Nat) 1) 1 3 5 0 []).offsets) ∧
    ((0 + 1) ∈ (lotFetchAux (fun o => .ok ((([5, 6] : List Nat).drop o).take 1)) 1 true 5 0 []).offsets) := by
  have h := fetch_loop_stop_condition Nat (honestSrv ([5, 6] : List Nat) 1)
    (fun o => .ok ((([5, 6] : List Nat).drop o).take 1)) 1 3 1 3 0 [] [] [5] [5]
    (by decide) (by decide) (by decide) rfl rfl
  exact ⟨h.1.mpr (by decide), h.2.mpr (by decide)⟩

/-- Claim C2, counterexample: the 04 variant (get_features_by_polygon) has no
retry loop, and a page failure after a successful page does not fail the
fetch: with two matching features, chunk size 1, a first page answering one
feature and the second request raising, the run still writes the partial
single-feature collection to the output file. -/
theorem lot_variant_persists_partial_counterexample :
    get_features_by_polygon_model Nat (fun l => l.sum) (fun _ _ g => g)
        (.ok ⟨[7], "EPSG:4326"⟩) (fun _ => .ok 2)
        (fun _ o => if o = 0 then .ok [Json.num 42] else .error "timeout") 1 5 =
      ⟨some (geojsonOf [Json.num 42]), 3, 1, false⟩ ∧
    (get_features_by_polygon_model Nat (fun l => l.sum) (fun _ _ g => g)
        (.ok ⟨[7], "EPSG:4326"⟩) (fun _ => .ok 2)
        (fun _ o => if o = 0 then .ok [Json.num 42] else .error "timeout") 1 5).saved.isSome =
      true := by
  exact ⟨rfl, rfl⟩

/-- Claim C2 (amended): in script 02, the attempts made for one page never
exceed the remaining retry budget; when every attempt at a page fails and at
least one attempt is allowed, the retry loop makes exactly max_retries
attempts and raises; a raised retry loop makes fetch_with_pagination fail
the whole fetch at that page; and script 02's main writes no file on a
failed fetch.  The 04 variant, by contrast, issues a single attempt per page
and persists whatever was accumulated before a page failure (see the
counterexample). -/
theorem retry_bound_and_failure_abort (α : Type)
    (req : Nat → Except String (List α)) (srv : Nat → Nat → Except String (List α))
    (e : String) (maxRetries a P fuel offset : Nat) (acc : List α) :
    (retryLoopAux req a maxRetries).2 ≤ maxRetries ∧
    ((∀ i, req i = .error e) → 0 < maxRetries →
      retryLoop req maxRetries = (.raised e, maxRetries)) ∧
    (∀ m, retryLoop (srv offset) maxRetries = (.raised e, m) →
      fetchPagesAux srv P maxRetries (fuel + 1) offset acc =
        ⟨some (.error (.fetchFailed e)), [offset], m⟩) ∧
    (∀ run : FetchRun, ∀ err : FetchError,
      run.outcome = some (.error err) → main_02 run = none) := by
  refine ⟨retryLoopAux_attempts_le req maxRetries a, ?_, ?_, ?_⟩
  · intro hfail hpos
    exact retryLoopAux_all_fail req e hfail maxRetries 0 hpos
  · intro m hm
    simp only [fetchPagesAux, hm]
  · intro run err h
    simp [main_02, h]

/-- Witness for C2's amended theorem: a server failing every attempt, budget
two: two attempts, then the raise aborts the fetch and main saves nothing. -/
theorem retry_bound_and_failure_abort_witness :
    (retryLoopAux (fun _ => (.error "boom" : Except String (List Nat))) 0 2).2 ≤ 2 ∧
    retryLoop (fun _ => (.error "boom" : Except String (List Nat))) 2 =
      (.raised "boom", 2) ∧
    fetchPagesAux (fun _ _ => (.error "boom" : Except String (List Nat))) 1000 2 1 0 [] =
      ⟨some (.error (.fetchFailed "boom")), [0], 2⟩ ∧
    main_02 ⟨some (.error (.fetchFailed "boom")), true⟩ = none := by
  have h := retry_bound_and_failure_abort Nat (fun _ => .error "boom")
    (fun _ _ => .error "boom") "boom" 2 0 1000 0 0 []
  exact ⟨h.1, h.2.1 (fun _ => rfl) (by decide),
    h.2.2.1 2 (h.2.1 (fun _ => rfl) (by decide)), h.2.2.2 _ _ rfl⟩

/-- Claim C4: when the single-request path's first attempt succeeds with fs,
fetch_single_request returns exactly those features after one attempt, with
the truncation warning emitted precisely when 1000 ≤ fs.length: so exactly
1000 features warn and are still all returned, and fewer than 1000 features
return unchanged without a warning. -/
theorem single_request_truncation_warning (α : Type)
    (req : Nat → Except String (List α)) (maxRetries : Nat) (fs : List α)
    (hR : 0 < maxRetries) (h0 : req 0 = .ok fs) :
    fetch_single_request req maxRetries = (.returned fs (decide (1000 ≤ fs.length)), 1) ∧
    (fs.length = 1000 → decide (1000 ≤ fs.length) = true) ∧
    (fs.length < 1000 → decide (1000 ≤ fs.length) = false) := by
  refine ⟨?_, ?_, ?_⟩
  · simp [fetch_single_request, retryLoop_first_ok req fs maxRetries h0 hR]
  · intro h
    simp [h]
  · intro h
    simp only [decide_eq_false_iff_not]
    omega

/-- Witness for C4: exactly 1000 features come back, all are returned and
the warning flag is set. -/
theorem single_request_truncation_warning_witness :
    fetch_single_request (fun _ => (.ok (List.replicate 1000 (0 : Nat)) :
        Except String (List Nat))) 3 =
      (.returned (List.replicate 1000 0) true, 1) := by
  have h := single_request_truncation_warning Nat
    (fun _ => .ok (List.replicate 1000 0)) 3 (List.replicate 1000 0) (by decide) rfl
  have hl : (List.replicate 1000 (0 : Nat)).length = 1000 := List.length_replicate 1000 0
  have hd : decide (1000 ≤ (List.replicate 1000 (0 : Nat)).length) = true := by
    rw [hl]
    rfl
  rw [h.1, hd]

/-- Claim C10: with max_retries = 0 the retry loop body never runs:
fetch_single_request falls off the loop and returns Python's implicit None
after zero attempts, and fetch_with_pagination's first iteration reads the
never-assigned variable data, raising NameError - neither the documented
fetch-failure exception nor a feature list. -/
theorem max_retries_zero_behaviour (α : Type)
    (req : Nat → Except String (List α)) (srv : Nat → Nat → Except String (List α))
    (P fuel offset : Nat) (acc : List α) :
    fetch_single_request req 0 = (.returnedNone, 0) ∧
    fetchPagesAux srv P 0 (fuel + 1) offset acc =
      ⟨some (.error .nameError), [offset], 0⟩ := by
  exact ⟨rfl, rfl⟩

/-- Claim C7: when loading the boundary file raises (unreadable file,
unsupported format), get_features_by_polygon reports the error and returns
before any network request: zero HTTP requests, the loading step ran exactly
once (no retry), nothing saved. -/
theorem boundary_load_failure_no_requests (G : Type) (union : List G → G)
    (reproject : String → String → G → G) (e : String)
    (countResp : G → Except String Nat) (srv : G → Nat → Except String (List Json))
    (chunkSize fuel : Nat) :
    get_features_by_polygon_model G union reproject (.error e) countResp srv
        chunkSize fuel =
      ⟨none, 0, 1, true⟩ := rfl

/-- Claim C6: given at least one polygon, the boundary preprocessor yields
exactly one geometry, in EPSG:4326; it dissolves precisely when more than
one polygon was supplied and reprojects precisely when the input reference
system differs from EPSG:4326; with several polygons the single output
geometry is the union (reprojected exactly when needed). -/
theorem boundary_preprocessor_single_polygon (G : Type) (union : List G → G)
    (reproject : String → String → G → G) (gdf : GeoDataFrame G)
    (h : 1 ≤ gdf.geoms.length) :
    (prepare_boundary union reproject gdf).gdf.geoms.length = 1 ∧
    (prepare_boundary union reproject gdf).gdf.crs = "EPSG:4326" ∧
    ((prepare_boundary union reproject gdf).dissolved = true ↔ 1 < gdf.geoms.length) ∧
    ((prepare_boundary union reproject gdf).reprojected = true ↔ gdf.crs ≠ "EPSG:4326") ∧
    (1 < gdf.geoms.length → gdf.crs = "EPSG:4326" →
      (prepare_boundary union reproject gdf).gdf.geoms = [union gdf.geoms]) ∧
    (1 < gdf.geoms.length → gdf.crs ≠ "EPSG:4326" →
      (prepare_boundary union reproject gdf).gdf.geoms =
        [reproject gdf.crs "EPSG:4326" (union gdf.geoms)]) := by
  simp only [prepare_boundary, dissolve, to_crs]
  by_cases hd : 1 < gdf.geoms.length
  · by_cases hc : gdf.crs = "EPSG:4326"
    · simp [hd, hc]
    · simp [hd, hc]
  · have hlen : gdf.geoms.length = 1 := by omega
    by_cases hc : gdf.crs = "EPSG:4326"
    · simp [hd, hc, hlen]
    · simp [hd, hc, hlen]

/-- Witness for C6: three polygons in EPSG:3857 become one geometry, the
reprojected union, tagged EPSG:4326, with both steps applied. -/
theorem boundary_preprocessor_single_polygon_witness :
    (prepare_boundary (fun _ => (0 : Nat)) (fun _ _ _ => 1)
        ⟨[4, 5, 6], "EPSG:3857"⟩).gdf.geoms.length = 1 ∧
    (prepare_boundary (fun _ => (0 : Nat)) (fun _ _ _ => 1)
        ⟨[4, 5, 6], "EPSG:3857"⟩).gdf.crs = "EPSG:4326" ∧
    (prepare_boundary (fun _ => (0 : Nat)) (fun _ _ _ => 1)
        ⟨[4, 5, 6], "EPSG:3857"⟩).gdf.geoms = [1] := by
  have h := boundary_preprocessor_single_polygon Nat (fun _ => 0) (fun _ _ _ => 1)
    ⟨[4, 5, 6], "EPSG:3857"⟩ (by decide)
  refine ⟨h.1, h.2.1, ?_⟩
  have h6 := h.2.2.2.2.2 (by decide) (by decide)
  simpa using h6

/-- The locally built FeatureCollection dict carries the type tag. -/
theorem jGet_geojsonOf_type (fs : List Json) :
    jGet (geojsonOf fs) "type" = some (.str "FeatureCollection") := rfl

/-- The locally built FeatureCollection dict carries exactly the fetched
features. -/
theorem jGet_geojsonOf_features (fs : List Json) :
    jGet (geojsonOf fs) "features" = some (.arr fs) := rfl

/-- Claim C9: check_pagination_support is a total function that returns the
boolean false on every failing or incomplete probe - a raised request, a
body without advancedQueryCapabilities, capabilities without
supportsPagination - and returns the boolean true only when the metadata
holds supportsPagination = true; a false probe makes fetch_arcgis_features
take the single-request path. -/
theorem check_pagination_support_total :
    (∀ e, check_pagination_support (.error e) = .bool false) ∧
    (∀ md, jGet md "advancedQueryCapabilities" = none →
      check_pagination_support (.ok md) = .bool false) ∧
    (∀ md caps, jGet md "advancedQueryCapabilities" = some caps →
      jGet caps "supportsPagination" = none →
      check_pagination_support (.ok md) = .bool false) ∧
    (∀ resp, check_pagination_support resp = .bool true →
      ∃ md caps, resp = .ok md ∧
        jGet md "advancedQueryCapabilities" = some caps ∧
        jGet caps "supportsPagination" = some (.bool true)) ∧
    (∀ probe srvPag srvSingle maxRetries fuel,
      truthy (check_pagination_support probe) = false →
      (fetch_arcgis_features probe srvPag srvSingle maxRetries fuel).usedPagination =
        false) := by
  refine ⟨fun e => rfl, ?_, ?_, ?_, ?_⟩
  · intro md h
    simp [check_pagination_support, h]
  · intro md caps h1 h2
    simp [check_pagination_support, h1, h2]
  · intro resp h
    cases resp with
    | error e => simp [check_pagination_support] at h
    | ok md =>
      rcases hm : jGet md "advancedQueryCapabilities" with _ | caps
      · simp [check_pagination_support, hm] at h
      · rcases hs : jGet caps "supportsPagination" with _ | v
        · simp [check_pagination_support, hm, hs] at h
        · refine ⟨md, caps, rfl, hm, ?_⟩
          rw [hs]
          simp only [check_pagination_support, hm, hs] at h
          rw [h]
  · intro probe srvPag srvSingle maxRetries fuel h
    simp only [fetch_arcgis_features, h, Bool.false_eq_true, if_false]
    rcases hfs : fetch_single_request srvSingle maxRetries with ⟨out, n⟩
    cases out <;> simp [hfs]

/-- Witness for C9: a refused connection, an empty body and one lacking the
flag all yield false; a body advertising supportsPagination = true is an
explicit advertisement; a failed probe routes around the pagination path. -/
theorem check_pagination_support_total_witness :
    check_pagination_support (.error "connection refused") = .bool false ∧
    check_pagination_support (.ok (Json.obj [])) = .bool false ∧
    check_pagination_support
        (.ok (Json.obj [("advancedQueryCapabilities", Json.obj [])])) = .bool false ∧
    (∃ md caps,
      (.ok (Json.obj [("advancedQueryCapabilities",
          Json.obj [("supportsPagination", Json.bool true)])]) : Except String Json) =
        .ok md ∧
      jGet md "advancedQueryCapabilities" = some caps ∧
      jGet caps "supportsPagination" = some (.bool true)) ∧
    (fetch_arcgis_features (.error "connection refused") (fun _ _ => .ok [])
        (fun _ => .ok []) 3 1).usedPagination = false := by
  have h := check_pagination_support_total
  exact ⟨h.1 "connection refused", h.2.1 _ rfl,
    h.2.2.1 _ (Json.obj []) rfl rfl, h.2.2.2.1 _ rfl,
    h.2.2.2.2 _ (fun _ _ => .ok []) (fun _ => .ok []) 3 1 rfl⟩

/-- Claim C8, counterexample: script 01 dumps the parsed server body
verbatim, so when the server answers HTTP 200 with an ArcGIS error object,
the run completes and writes a file that is not a FeatureCollection: it has
neither a type nor a features field. -/
theorem script01_verbatim_body_counterexample :
    fetch_LGA_boundary
        (.ok (Json.obj [("error", Json.str "Invalid or missing input parameters")])) =
      some (Json.obj [("error", Json.str "Invalid or missing input parameters")]) ∧
    jGet (Json.obj [("error", Json.str "Invalid or missing input parameters")]) "type" =
      none ∧
    jGet (Json.obj [("error", Json.str "Invalid or missing input parameters")])
        "features" = none := by
  exact ⟨rfl, rfl, rfl⟩

/-- Claim C8 (amended): scripts that build the collection locally - script
02's fetch_arcgis_features and script 04's get_features_by_polygon - write a
single object with type "FeatureCollection" and features holding exactly the
fetched list, whatever the server returned; script 01 and 04's
quick_spatial_query instead write the parsed server response verbatim, so
their files have that shape only when the server itself returned it. -/
theorem featurecollection_output_shape :
    (∀ (probe : Except String Json) srvPag srvSingle maxRetries fuel g,
      (fetch_arcgis_features probe srvPag srvSingle maxRetries fuel).outcome =
        some (.ok g) →
      ∃ fs, g = geojsonOf fs ∧ jGet g "type" = some (.str "FeatureCollection") ∧
        jGet g "features" = some (.arr fs)) ∧
    (∀ (G : Type) (union : List G → G) (reproject : String → String → G → G)
        load countResp srv chunkSize fuel g,
      (get_features_by_polygon_model G union reproject load countResp srv
          chunkSize fuel).saved = some g →
      ∃ fs, g = geojsonOf fs ∧ jGet g "type" = some (.str "FeatureCollection") ∧
        jGet g "features" = some (.arr fs)) ∧
    (∀ body, fetch_LGA_boundary (.ok body) = some body) ∧
    (∀ body, quick_spatial_query_save (.ok body) = some body) := by
  refine ⟨?_, ?_, fun body => rfl, fun body => rfl⟩
  · intro probe srvPag srvSingle maxRetries fuel g h
    unfold fetch_arcgis_features at h
    split at h
    · dsimp only at h
      rcases ho : (fetch_with_pagination srvPag 1000 maxRetries fuel).outcome with _ | x
      · rw [ho] at h
        exact absurd h (by simp)
      · rw [ho] at h
        cases x with
        | ok fs =>
          have hg : geojsonOf fs = g := by
            simpa [Except.map] using h
          exact ⟨fs, hg.symm, hg ▸ jGet_geojsonOf_type fs, hg ▸ jGet_geojsonOf_features fs⟩
        | error err => exact absurd h (by simp [Except.map])
    · split at h
      · dsimp only at h
        have hg := Except.ok.inj (Option.some.inj h)
        exact ⟨_, hg.symm, hg ▸ jGet_geojsonOf_type _, hg ▸ jGet_geojsonOf_features _⟩
      · exact absurd h (by simp)
      · exact absurd h (by simp)
  · intro G union reproject load countResp srv chunkSize fuel g h
    unfold get_features_by_polygon_model at h
    split at h
    · exact absurd h (by simp)
    · dsimp only at h
      split at h
      · exact absurd h (by simp)
      · split at h
        · exact absurd h (by simp)
        · dsimp only at h
          split at h
          · exact absurd h (by simp)
          · have hg := Option.some.inj h
            exact ⟨_, hg.symm, hg ▸ jGet_geojsonOf_type _, hg ▸ jGet_geojsonOf_features _⟩

/-- Witness for C8's amended theorem: a single-request run returning one
feature writes exactly the FeatureCollection wrapper around it. -/
theorem featurecollection_output_shape_witness :
    ∃ fs, geojsonOf [Json.num 1] = geojsonOf fs ∧
      jGet (geojsonOf [Json.num 1]) "type" = some (.str "FeatureCollection") ∧
      jGet (geojsonOf [Json.num 1]) "features" = some (.arr fs) := by
  exact featurecollection_output_shape.1 (.error "down") (fun _ _ => .ok [])
    (fun _ => .ok [Json.num 1]) 3 1 (geojsonOf [Json.num 1]) rfl

/-- A serialized value never begins with a closing bracket. -/
theorem serV_head_ne_rbrack (v : Json) :
    ∃ tok ts, serV v = tok :: ts ∧ tok ≠ JTok.rbrack := by
  cases v with
  | null => exact ⟨.null, [], rfl, by simp⟩
  | bool b =>
    cases b with
    | true => exact ⟨.tru, [], rfl, by simp⟩
    | false => exact ⟨.fls, [], rfl, by simp⟩
  | num n => exact ⟨.num n, [], rfl, by simp⟩
  | str s => exact ⟨.str s, [], rfl, by simp⟩
  | arr xs => exact ⟨.lbrack, serItems xs ++ [.rbrack], by simp [serV], by simp⟩
  | obj fs => exact ⟨.lbrace, serFields fs ++ [.rbrace], by simp [serV], by simp⟩

/-- On input not starting with a closing bracket, parseArrTail defers to the
one-or-more-elements parser. -/
theorem parseArrTail_cons (fuel : Nat) (tok : JTok) (ts : List JTok)
    (h : tok ≠ JTok.rbrack) :
    parseArrTail (fuel + 1) (tok :: ts) = parseItems fuel (tok :: ts) := by
  cases tok
  case rbrack => exact absurd rfl h
  all_goals rfl

/-- On input starting with a key token, parseObjTail defers to the
one-or-more-members parser. -/
theorem parseObjTail_cons (fuel : Nat) (k : String) (ts : List JTok) :
    parseObjTail (fuel + 1) (.str k :: ts) = parseFields fuel (.str k :: ts) := rfl

/-- The serialization of a nonempty element list starts with its head's
serialization. -/
theorem serItems_cons (x : Json) (t : List Json) :
    ∃ tail, serItems (x :: t) = serV x ++ tail := by
  cases t with
  | nil => exact ⟨[], (List.append_nil _).symm⟩
  | cons y t' => exact ⟨.comma :: serItems (y :: t'), rfl⟩

/-- The serialization of a nonempty member list starts with its first key. -/
theorem serFields_head (k : String) (v : Json) (t : List (String × Json)) :
    ∃ ts, serFields ((k, v) :: t) = JTok.str k :: ts := by
  cases t with
  | nil => exact ⟨_, rfl⟩
  | cons p t' => exact ⟨_, rfl⟩

mutual

/-- The token parser inverts the serializer on any value, given enough
budget, leaving any suffix untouched. -/
theorem parse_serV : ∀ (v : Json) (fuel : Nat) (rest : List JTok), szV v ≤ fuel →
    parseValue fuel (serV v ++ rest) = some (v, rest)
  | .null, 0, _, h => by simp only [szV] at h; omega
  | .null, _ + 1, _, _ => rfl
  | .bool true, 0, _, h => by simp only [szV] at h; omega
  | .bool true, _ + 1, _, _ => rfl
  | .bool false, 0, _, h => by simp only [szV] at h; omega
  | .bool false, _ + 1, _, _ => rfl
  | .num n, 0, _, h => by simp only [szV] at h; omega
  | .num n, _ + 1, _, _ => rfl
  | .str s, 0, _, h => by simp only [szV] at h; omega
  | .str s, _ + 1, _, _ => rfl
  | .arr xs, 0, _, h => by simp only [szV] at h; omega
  | .arr [], 1, _, h => by simp only [szV, szA] at h; omega
  | .arr [], _ + 2, _, _ => rfl
  | .arr (x :: t), 1, _, h => by simp only [szV] at h; omega
  | .arr (x :: t), f + 2, rest, h => by
      have hsz : szA (x :: t) ≤ f := by
        simp only [szV] at h
        omega
      obtain ⟨tok, ts, hser, hne⟩ := serV_head_ne_rbrack x
      obtain ⟨tail, htail⟩ := serItems_cons x t
      have hdecomp : serItems (x :: t) ++ JTok.rbrack :: rest =
          tok :: (ts ++ (tail ++ JTok.rbrack :: rest)) := by
        rw [htail, hser]
        simp [List.append_assoc]
      have harr : parseArrTail (f + 1) (serItems (x :: t) ++ JTok.rbrack :: rest) =
          some (x :: t, rest) := by
        rw [hdecomp, parseArrTail_cons f tok _ hne, ← hdecomp]
        exact parse_serItems (x :: t) (by simp) f rest hsz
      have hL : serV (Json.arr (x :: t)) ++ rest =
          JTok.lbrack :: (serItems (x :: t) ++ JTok.rbrack :: rest) := by
        simp [serV, List.append_assoc]
      rw [hL]
      simp only [parseValue, harr]
  | .obj fs, 0, _, h => by simp only [szV] at h; omega
  | .obj [], 1, _, h => by simp only [szV, szF] at h; omega
  | .obj [], _ + 2, _, _ => rfl
  | .obj ((k, v) :: t), 1, _, h => by simp only [szV] at h; omega
  | .obj ((k, v) :: t), f + 2, rest, h => by
      have hsz : szF ((k, v) :: t) ≤ f := by
        simp only [szV] at h
        omega
      obtain ⟨hts, hhead⟩ := serFields_head k v t
      have hdecomp : serFields ((k, v) :: t) ++ JTok.rbrace :: rest =
          JTok.str k :: (hts ++ JTok.rbrace :: rest) := by
        rw [hhead]
        rfl
      have hobj : parseObjTail (f + 1) (serFields ((k, v) :: t) ++ JTok.rbrace :: rest) =
          some ((k, v) :: t, rest) := by
        rw [hdecomp, parseObjTail_cons, ← hdecomp]
        exact parse_serFields ((k, v) :: t) (by simp) f rest hsz
      have hL : serV (Json.obj ((k, v) :: t)) ++ rest =
          JTok.lbrace :: (serFields ((k, v) :: t) ++ JTok.rbrace :: rest) := by
        simp [serV, List.append_assoc]
      rw [hL]
      simp only [parseValue, hobj]

/-- The one-or-more-elements parser inverts the element serializer followed
by the closing bracket. -/
theorem parse_serItems : ∀ (xs : List Json), xs ≠ [] →
    ∀ (fuel : Nat) (rest : List JTok), szA xs ≤ fuel →
    parseItems fuel (serItems xs ++ JTok.rbrack :: rest) = some (xs, rest)
  | [], hne, _, _, _ => absurd rfl hne
  | [x], _, 0, _, hsz => by simp only [szA] at hsz; omega
  | [x], _, f + 1, rest, hsz => by
      have hv := parse_serV x f (JTok.rbrack :: rest)
        (by simp only [szA] at hsz; omega)
      have hL : serItems [x] ++ JTok.rbrack :: rest = serV x ++ JTok.rbrack :: rest := by
        simp [serItems]
      rw [hL]
      simp only [parseItems, hv]
  | x :: y :: t, _, 0, _, hsz => by simp only [szA] at hsz; omega
  | x :: y :: t, _, f + 1, rest, hsz => by
      have h1 : szV x ≤ f := by simp only [szA] at hsz; omega
      have h2 : szA (y :: t) ≤ f := by simp only [szA] at hsz ⊢; omega
      have hv := parse_serV x f (JTok.comma :: (serItems (y :: t) ++ JTok.rbrack :: rest)) h1
      have hi := parse_serItems (y :: t) (by simp) f rest h2
      have hL : serItems (x :: y :: t) ++ JTok.rbrack :: rest =
          serV x ++ (JTok.comma :: (serItems (y :: t) ++ JTok.rbrack :: rest)) := by
        simp [serItems]
      rw [hL]
      simp only [parseItems, hv, hi]

/-- The one-or-more-members parser inverts the member serializer followed by
the closing brace. -/
theorem parse_serFields : ∀ (fs : List (String × Json)), fs ≠ [] →
    ∀ (fuel : Nat) (rest : List JTok), szF fs ≤ fuel →
    parseFields fuel (serFields fs ++ JTok.rbrace :: rest) = some (fs, rest)
  | [], hne, _, _, _ => absurd rfl hne
  | [(k, v)], _, 0, _, hsz => by simp only [szF] at hsz; omega
  | [(k, v)], _, f + 1, rest, hsz => by
      have hv := parse_serV v f (JTok.rbrace :: rest)
        (by simp only [szF] at hsz; omega)
      have hL : serFields [(k, v)] ++ JTok.rbrace :: rest =
          JTok.str k :: JTok.colon :: (serV v ++ JTok.rbrace :: rest) := by
        simp [serFields]
      rw [hL]
      simp only [parseFields, hv]
  | (k, v) :: p :: t, _, 0, _, hsz => by simp only [szF] at hsz; omega
  | (k, v) :: p :: t, _, f + 1, rest, hsz => by
      have h1 : szV v ≤ f := by simp only [szF] at hsz; omega
      have h2 : szF (p :: t) ≤ f := by simp only [szF] at hsz ⊢; omega
      have hv := parse_serV v f
        (JTok.comma :: (serFields (p :: t) ++ JTok.rbrace :: rest)) h1
      have hf := parse_serFields (p :: t) (by simp) f rest h2
      have hL : serFields ((k, v) :: p :: t) ++ JTok.rbrace :: rest =
          JTok.str k :: JTok.colon ::
            (serV v ++ (JTok.comma :: (serFields (p :: t) ++ JTok.rbrace :: rest))) := by
        simp [serFields]
      rw [hL]
      simp only [parseFields, hv, hf]

end

mutual

/-- The parser budget a value needs is within a constant factor of its
serialized length. -/
theorem szV_le_serV : ∀ v : Json, szV v ≤ 3 * (serV v).length
  | .null => by simp [szV, serV]
  | .bool true => by simp [szV, serV]
  | .bool false => by simp [szV, serV]
  | .num n => by simp [szV, serV]
  | .str s => by simp [szV, serV]
  | .arr xs => by
      have h := szA_le_serItems xs
      simp only [szV, serV, List.length_cons, List.length_append, List.length_singleton]
      omega
  | .obj fs => by
      have h := szF_le_serFields fs
      simp only [szV, serV, List.length_cons, List.length_append, List.length_singleton]
      omega

/-- Budget bound for element lists. -/
theorem szA_le_serItems : ∀ xs : List Json, szA xs ≤ 3 * (serItems xs).length + 1
  | [] => by simp [szA, serItems]
  | [x] => by
      have h := szV_le_serV x
      simp only [szA, serItems, List.length_nil]
      omega
  | x :: y :: t => by
      have h1 := szV_le_serV x
      have h2 := szA_le_serItems (y :: t)
      simp only [szA, serItems, List.length_append, List.length_cons]
      simp only [szA] at h2
      omega

/-- Budget bound for member lists. -/
theorem szF_le_serFields : ∀ fs : List (String × Json), szF fs ≤ 3 * (serFields fs).length + 1
  | [] => by simp [szF, serFields]
  | [(k, v)] => by
      have h := szV_le_serV v
      simp only [szF, serFields, List.length_cons]
      omega
  | (k, v) :: p :: t => by
      have h1 := szV_le_serV v
      have h2 := szF_le_serFields (p :: t)
      simp only [szF, serFields, List.length_append, List.length_cons]
      simp only [szF] at h2
      omega

end

/-- Claim C5: saving a feature collection with save_geojson and reloading it
with json.load yields the identical object, in particular the identical
sequence of features: none added, dropped or reordered. -/
theorem save_geojson_roundtrip (features : List Json) :
    json_load (save_geojson (geojsonOf features)) = some (geojsonOf features) ∧
    (json_load (save_geojson (geojsonOf features))).bind (fun g => jGet g "features") =
      some (.arr features) := by
  have hfuel : szV (geojsonOf features) ≤ 3 * (serV (geojsonOf features)).length + 1 := by
    have h := szV_le_serV (geojsonOf features)
    omega
  have hp := parse_serV (geojsonOf features)
    (3 * (serV (geojsonOf features)).length + 1) [] hfuel
  rw [List.append_nil] at hp
  have hload : json_load (save_geojson (geojsonOf features)) = some (geojsonOf features) := by
    unfold json_load save_geojson
    rw [hp]
  exact ⟨hload, by rw [hload]; exact jGet_geojsonOf_features features⟩
